import Mathlib

/-!
Verification of the tigate repository's dynamic stream scheduler
(`utils/dynstream`), conflict-key hashing
(`downstreamadapter/sink/conflictdetector`) and coordinator operator
(`coordinator/operator/operator_add.go`) against their natural-language
specification, via a shallow embedding in Lean 4.

Conventions:
* Go `int` / `int64` / `time.Duration` are embedded as `Int` (the repository
  itself panics unless the platform `int` is 64 bits wide, and none of the
  embedded code paths overflow 64 bits).
* Go byte slices are embedded as `List Nat` with every element `< 256`.
* Go `nil` slices / pointers are embedded as `Option`, or as `[]` where the
  source only ever tests `len(x) == 0`.
-/

namespace Dynstream

/-! ## Embedding of `utils/dynstream/interfaces.go` -/

/-- Go `time.Duration` is an `int64` nanosecond count. -/
abbrev Duration := Int

/-- `time.Second` in nanoseconds. -/
def timeSecond : Duration := 1000000000

/-- `time.Millisecond` in nanoseconds. -/
def timeMillisecond : Duration := 1000000

/-- `const DefaultSchedulerInterval = 1 * time.Second`. -/
def DefaultSchedulerInterval : Duration := 1 * timeSecond

/-- `const DefaultReportInterval = 500 * time.Millisecond`. -/
def DefaultReportInterval : Duration := 500 * timeMillisecond

/-- `const DefaultMaxPendingSize = 128 * (1 << 20)` (bytes). -/
def DefaultMaxPendingSize : Int := 128 * (1 <<< 20)

/-- `const DefaultFeedbackInterval = 1000 * time.Millisecond`. -/
def DefaultFeedbackInterval : Duration := 1000 * timeMillisecond

/-- Go `type Property int`; the constants below are declared by `iota`,
so `BatchableData` is the zero value of the type. -/
abbrev Property := Int

/-- `BatchableData Property = iota` (first, hence `0`). -/
def BatchableData : Property := 0

/-- `PeriodicSignal` (second `iota` value). -/
def PeriodicSignal : Property := 1

/-- `NonBatchable` (third `iota` value). -/
def NonBatchable : Property := 2

/-- Go `type EventType struct { DataGroup int; Property Property }`. -/
structure EventType where
  DataGroup : Int
  Property : Property
  deriving DecidableEq, Repr

/-- Go `var DefaultEventType = EventType{}`: the zero value of the struct,
i.e. every field is the zero value of its type. -/
def DefaultEventType : EventType := { DataGroup := 0, Property := 0 }

/-- Go `type Option struct`.  The unexported test-only field
`handleWait *sync.WaitGroup` carries no behaviour relevant to the embedded
code and is omitted. -/
structure Opt where
  SchedulerInterval : Duration
  ReportInterval : Duration
  StreamCount : Int
  BatchCount : Int
  EnableMemoryControl : Bool
  deriving DecidableEq, Repr

/-- Go `func NewOption() Option`: the struct literal sets the four listed
fields and leaves `EnableMemoryControl` at its zero value `false`. -/
def NewOption : Opt :=
  { SchedulerInterval := DefaultSchedulerInterval
    ReportInterval := DefaultReportInterval
    StreamCount := 0
    BatchCount := 1
    EnableMemoryControl := false }

/-- Go `func (o *Option) fix()`.  `runtime.NumCPU()` is a host parameter and
is passed explicitly. -/
def Opt.fix (o : Opt) (numCPU : Int) : Opt :=
  let o := if o.StreamCount = 0 then { o with StreamCount := numCPU } else o
  if o.BatchCount ≤ 0 then { o with BatchCount := 1 } else o

/-- Go `type AreaSettings struct`. -/
structure AreaSettings where
  MaxPendingSize : Int
  FeedbackInterval : Duration
  deriving DecidableEq, Repr

/-- Go `func (s *AreaSettings) fix()`. -/
def AreaSettings.fix (s : AreaSettings) : AreaSettings :=
  let s := if s.MaxPendingSize ≤ 0 then { s with MaxPendingSize := DefaultMaxPendingSize } else s
  if s.FeedbackInterval = 0 then { s with FeedbackInterval := DefaultFeedbackInterval } else s

/-- Go `func NewAreaSettings() AreaSettings`. -/
def NewAreaSettings : AreaSettings :=
  { MaxPendingSize := DefaultMaxPendingSize
    FeedbackInterval := DefaultFeedbackInterval }

/-- Go `func NewDynamicStream[...](handler H, option ...Option)`.
The function panics when `unsafe.Sizeof(int(0)) != 8`; the platform word
size is a host parameter `intSize` (in bytes) and the panic is embedded as
`Except.error` carrying the panic message.  On success the stream is built
by `newDynamicStreamImpl(handler, opt)` from the chosen option `opt`; the
implementation file is outside the embedded sources, so the result of the
embedding is the configuration `opt` the stream is constructed from. -/
def NewDynamicStream (intSize : Nat) (option : List Opt) : Except String Opt :=
  if intSize ≠ 8 then
    .error "int is not int64"
  else
    .ok (match option with
      | [] => NewOption
      | o :: _ => o)

end Dynstream

namespace ConflictDetector

/-! ## Embedding of `downstreamadapter/sink/conflictdetector/helper.go`

External data types (`common.Column`, `common.RowChangedEvent`,
`common.TxnEvent` from `pkg/common`, and `model.ColumnValueString`,
`strings.ToLower` from libraries) are not part of the embedded sources; they
are embedded as plain records and byte-list operations carrying exactly the
structure `helper.go` reads: nil-ness of a column pointer and of its value,
the generated-column flag, the MySQL type byte, the collation string, the
index column offsets and the table ID. -/

/-- A byte value; kept `< 256` by construction everywhere it is produced. -/
abbrev Byte := Nat

/-- Embedding of `common.Column` as read by `genKeyList`: `value = none`
models `Value == nil` (SQL NULL); `some bs` holds the bytes of
`model.ColumnValueString(Value)` (the stringification itself is opaque to
`helper.go`). `flagGeneratedColumn` models `Flag.IsGeneratedColumn()`,
`typ` the MySQL type byte `Type`, `collation` the collation name. -/
structure Column where
  value : Option (List Byte)
  flagGeneratedColumn : Bool
  typ : Nat
  collation : String

/-- Embedding of the part of `common.TableInfo` used here. -/
structure TableInfo where
  IndexColumnsOffset : List (List Nat)

/-- Embedding of `common.RowChangedEvent`: `Columns`/`PreColumns` are
`[]*common.Column`, so each entry is `Option Column` (`none` = nil pointer);
`GetColumns`, `GetPreColumns` and `GetTableID` are the plain accessors. -/
structure RowChangedEvent where
  Columns : List (Option Column)
  PreColumns : List (Option Column)
  TableInfo : TableInfo
  TableID : Int

/-- `row.GetColumns()`. -/
def RowChangedEvent.GetColumns (r : RowChangedEvent) : List (Option Column) := r.Columns

/-- `row.GetPreColumns()`. -/
def RowChangedEvent.GetPreColumns (r : RowChangedEvent) : List (Option Column) := r.PreColumns

/-- `row.GetTableID()`. -/
def RowChangedEvent.GetTableID (r : RowChangedEvent) : Int := r.TableID

/-- Embedding of the part of `common.TxnEvent` used by `ConflictKeys`. -/
structure TxnEvent where
  Rows : List RowChangedEvent

/-- `mysql.TypeVarchar`. -/
def mysqlTypeVarchar : Nat := 15

/-- `mysql.TypeTinyBlob`. -/
def mysqlTypeTinyBlob : Nat := 249

/-- `mysql.TypeMediumBlob`. -/
def mysqlTypeMediumBlob : Nat := 250

/-- `mysql.TypeLongBlob`. -/
def mysqlTypeLongBlob : Nat := 251

/-- `mysql.TypeBlob`. -/
def mysqlTypeBlob : Nat := 252

/-- `mysql.TypeVarString`. -/
def mysqlTypeVarString : Nat := 253

/-- `mysql.TypeString`. -/
def mysqlTypeString : Nat := 254

/-- `func collationNeeds2LowerCase(collation string) bool`. -/
def collationNeeds2LowerCase (collation : String) : Bool :=
  collation.endsWith "_ci"

/-- `func columnNeeds2LowerCase(mysqlType byte, collation string) bool`. -/
def columnNeeds2LowerCase (mysqlType : Nat) (collation : String) : Bool :=
  if mysqlType = mysqlTypeVarchar ∨ mysqlType = mysqlTypeString ∨
      mysqlType = mysqlTypeVarString ∨ mysqlType = mysqlTypeTinyBlob ∨
      mysqlType = mysqlTypeMediumBlob ∨ mysqlType = mysqlTypeBlob ∨
      mysqlType = mysqlTypeLongBlob then
    collationNeeds2LowerCase collation
  else false

/-- Embedding of `strings.ToLower` on embedded byte strings: ASCII letters
are lowered byte-wise (the Unicode cases of the Go function do not affect
any property proved here). -/
def toLowerBytes (bs : List Byte) : List Byte :=
  bs.map (fun b => if 65 ≤ b ∧ b ≤ 90 then b + 32 else b)

/-- `binary.BigEndian.PutUint64` into a fresh 8-byte slice: the 8 big-endian
bytes of `n mod 2^64`. -/
def putUint64BE (n : Nat) : List Byte :=
  [n / 2 ^ 56 % 256, n / 2 ^ 48 % 256, n / 2 ^ 40 % 256, n / 2 ^ 32 % 256,
   n / 2 ^ 24 % 256, n / 2 ^ 16 % 256, n / 2 ^ 8 % 256, n % 256]

/-- Go conversion `uint64(x)` of an `int64`: two's-complement
reinterpretation. -/
def toUint64 (i : Int) : Nat := (i % (2 ^ 64 : Int)).toNat

/-- The key-accumulating loop of `genKeyList` over the index's column
offsets: `none` embeds the early `return nil` taken when a column pointer is
nil, its value is NULL, or it is a generated column.  Go indexes
`columns[i]` without a bounds check; an out-of-range offset is embedded as a
nil column (`getD i none`). -/
def genKeyCols (columns : List (Option Column)) : List Nat → Option (List Byte)
  | [] => some []
  | i :: rest =>
    match columns.getD i none with
    | none => none
    | some c =>
      match c.value with
      | none => none
      | some v =>
        if c.flagGeneratedColumn then none
        else
          match genKeyCols columns rest with
          | none => none
          | some tail =>
            some (((if columnNeeds2LowerCase c.typ c.collation then toLowerBytes v
                    else v) ++ [0]) ++ tail)

/-- `func genKeyList(columns []*common.Column, iIdx int, colIdx []int,
tableID int64) []byte`; the empty list embeds the Go `nil` result. -/
def genKeyList (columns : List (Option Column)) (iIdx : Nat) (colIdx : List Nat)
    (tableID : Int) : List Byte :=
  match genKeyCols columns colIdx with
  | none => []
  | some key =>
    if key = [] then []
    else key ++ putUint64BE iIdx ++ putUint64BE (toUint64 tableID)

/-- One of the two index loops of `genRowKeys`: for each `(iIdx, idxCol)` of
`row.TableInfo.IndexColumnsOffset`, keep `genKeyList(...)` unless it is
empty (`continue`). -/
def rowIndexKeys (columns : List (Option Column)) (offsets : List (List Nat))
    (tableID : Int) : List (List Byte) :=
  offsets.enum.filterMap (fun p =>
    let key := genKeyList columns p.1 p.2 tableID
    if key.length = 0 then none else some key)

/-- `func genRowKeys(row *common.RowChangedEvent) [][]byte`. -/
def genRowKeys (row : RowChangedEvent) : List (List Byte) :=
  let keysC :=
    if row.Columns.length ≠ 0 then
      rowIndexKeys row.GetColumns row.TableInfo.IndexColumnsOffset row.GetTableID
    else []
  let keysP :=
    if row.PreColumns.length ≠ 0 then
      rowIndexKeys row.GetPreColumns row.TableInfo.IndexColumnsOffset row.GetTableID
    else []
  let keys := keysC ++ keysP
  if keys.length = 0 then [putUint64BE (toUint64 row.GetTableID)] else keys

/-- One step of the 32-bit FNV-1a hash (`hash/fnv`, `fnv.New32a`):
xor the byte in, multiply by the FNV prime, modulo `2^32`. -/
def fnv32aStep (h b : Nat) : Nat := ((h ^^^ b) * 16777619) % 2 ^ 32

/-- The 32-bit FNV-1a hash of a byte string, starting from the FNV offset
basis.  `hasher.Write` on the in-memory FNV hasher never errs nor writes
short, so the `log.Panic` branch of `ConflictKeys` is dead code. -/
def fnv32a (bytes : List Byte) : Nat := bytes.foldl fnv32aStep 2166136261

/-- Membership-tested insertion: embeds adding `hashRes[h] = struct{}{}` to
the Go set `hashRes` (a `map[uint64]struct{}`). -/
def insertIfAbsent (acc : List Nat) (x : Nat) : List Nat :=
  if x ∈ acc then acc else acc ++ [x]

/-- The body of the row loop of `ConflictKeys`: hash every key of the row
and add it to the set. -/
def addRowHashes (acc : List Nat) (row : RowChangedEvent) : List Nat :=
  (genRowKeys row).foldl (fun a key => insertIfAbsent a (fnv32a key)) acc

/-- `func ConflictKeys(event *common.TxnEvent) []uint64`.  Go extracts the
keys of the set `hashRes` in unspecified map order; the embedding fixes
first-insertion order, one of the permitted orders (every property proved
about the result is order-insensitive). -/
def ConflictKeys (event : TxnEvent) : List Nat :=
  if event.Rows.length = 0 then []
  else event.Rows.foldl addRowHashes []

end ConflictDetector

namespace OperatorAdd

/-! ## Embedding of `coordinator/operator/operator_add.go`

`node.ID`, `heartbeatpb.MaintainerStatus`, `messaging.TargetMessage` and the
changefeed types are external to the embedded sources; they are embedded
just deep enough for the operator's control flow: node IDs are strings, a
maintainer status carries its component state, and the message produced by
`Schedule` records the changefeed and destination it is built from.  The
two `atomic.Bool` fields become plain `Bool` fields of a functional state,
and method calls become state transformers (the Go methods mutate the
receiver through atomic stores; call sequences are embedded as folds). -/

/-- `node.ID`. -/
abbrev NodeID := String

/-- `heartbeatpb.ComponentState` (proto enum); `Check` only ever compares a
state against `Working`. -/
inductive ComponentState
  | Absent
  | Preparing
  | Prepared
  | Working
  | Stopped
  deriving DecidableEq, Repr

/-- The part of `heartbeatpb.MaintainerStatus` read by `Check`. -/
structure MaintainerStatus where
  State : ComponentState
  deriving DecidableEq, Repr

/-- Embedding of the `messaging.TargetMessage` built by
`m.cf.NewAddMaintainerMessage(m.dest)`: the changefeed and destination node
it was built from. -/
structure TargetMessage where
  changefeedID : String
  dest : NodeID
  deriving DecidableEq, Repr

/-- `AddMaintainerOperator`: `cf` and `db` are embedded as the changefeed ID
(the only part of them that flows back into the embedded methods); the two
`atomic.Bool`s are plain fields. -/
structure AddMaintainerOperator where
  cfID : String
  dest : NodeID
  finished : Bool
  removed : Bool
  deriving DecidableEq, Repr

/-- `func NewAddMaintainerOperator(...)`: `finished` and `removed` start at
the `atomic.Bool` zero value `false`. -/
def NewAddMaintainerOperator (cfID : String) (dest : NodeID) : AddMaintainerOperator :=
  { cfID := cfID, dest := dest, finished := false, removed := false }

/-- `func (m *AddMaintainerOperator) Check(from node.ID, status *heartbeatpb.MaintainerStatus)`. -/
def Check (m : AddMaintainerOperator) (fromNode : NodeID) (status : MaintainerStatus) :
    AddMaintainerOperator :=
  if m.finished = false ∧ fromNode = m.dest ∧ status.State = ComponentState.Working then
    { m with finished := true }
  else m

/-- `func (m *AddMaintainerOperator) Schedule() *messaging.TargetMessage`;
`none` embeds the nil pointer. -/
def Schedule (m : AddMaintainerOperator) : Option TargetMessage :=
  if m.finished || m.removed then none
  else some { changefeedID := m.cfID, dest := m.dest }

/-- `func (m *AddMaintainerOperator) OnNodeRemove(n node.ID)`. -/
def OnNodeRemove (m : AddMaintainerOperator) (n : NodeID) : AddMaintainerOperator :=
  if n = m.dest then { m with finished := true, removed := true } else m

/-- `func (m *AddMaintainerOperator) IsFinished() bool`. -/
def IsFinished (m : AddMaintainerOperator) : Bool := m.finished

/-- `func (m *AddMaintainerOperator) OnTaskRemoved()`. -/
def OnTaskRemoved (m : AddMaintainerOperator) : AddMaintainerOperator :=
  { m with finished := true, removed := true }

/-- `func (m *AddMaintainerOperator) Start()`: binds the changefeed to the
destination node in the changefeed database; it does not touch the
operator's own fields. -/
def Start (m : AddMaintainerOperator) : AddMaintainerOperator := m

/-- `func (m *AddMaintainerOperator) PostFinish()`: marks the changefeed
replicating in the database; it does not touch the operator's own fields. -/
def PostFinish (m : AddMaintainerOperator) : AddMaintainerOperator := m

/-- One method call on the operator.  `Schedule`, `ID`, `IsFinished`,
`String` and `Type` are pure queries and cannot change the state; `Start`
and `PostFinish` are included to cover every mutating-receiver method. -/
inductive MethodCall
  | check (fromNode : NodeID) (status : MaintainerStatus)
  | onNodeRemove (n : NodeID)
  | onTaskRemoved
  | start
  | postFinish
  deriving DecidableEq, Repr

/-- Apply one method call to the operator state. -/
def applyMethod (m : AddMaintainerOperator) : MethodCall → AddMaintainerOperator
  | .check f s => Check m f s
  | .onNodeRemove n => OnNodeRemove m n
  | .onTaskRemoved => OnTaskRemoved m
  | .start => Start m
  | .postFinish => PostFinish m

/-- Apply a sequence of method calls, left to right. -/
def runMethods (m : AddMaintainerOperator) (calls : List MethodCall) : AddMaintainerOperator :=
  calls.foldl applyMethod m

end OperatorAdd

namespace PathModel

/-! ## Spec-model of the dynamic stream's per-path behaviour

The `DynamicStream` implementation (`newDynamicStreamImpl`, its workers,
memory controller and feedback emitter) is not among the embedded sources;
only the interface `utils/dynstream/interfaces.go` is.  The definitions in
this namespace are therefore modelled from the spec (sections 4.2
"Admission", 4.3 "Batching & Dispatch", 4.4 "Scheduler", 4.5 "Memory
Control & Feedback" and section 5 "Ordering guarantees"), projected onto a
single path: the spec guarantees that events of one path are handled by
exactly one worker at a time and serially, so a path's queue, handled
sequence, pause/await flags and owner evolve by the per-path transitions
below, while the surrounding events of other paths only influence *when*
those transitions fire, which the trace quantifies over. -/

open Dynstream

/-- Modelled from the spec: the per-event data the missing implementation
derives through the `Handler` (`GetSize`, `GetType`); `id` is the ghost
admission index identifying the event. -/
structure AdmEvent where
  id : Nat
  size : Int
  group : Int
  property : Property
  deriving DecidableEq, Repr

/-- Modelled from the spec: a feedback record for the path (the spec's
`{area, path, dest, pause}` restricted to the single modelled path). -/
structure FeedbackRec where
  pause : Bool
  deriving DecidableEq, Repr

/-- Modelled from the spec: the configuration the missing implementation
reads from `Option` and `AreaSettings` for admission and batching. -/
structure DSConfig where
  BatchCount : Nat
  EnableMemoryControl : Bool
  MaxPendingSize : Int
  deriving DecidableEq, Repr

/-- Modelled from the spec: the state of one path inside the missing
implementation (spec section 3, "Path"), with ghost fields recording the
admission history: `admitted` lists every event in admission order,
`droppedIds` the admission indices of events dropped (at admission, or
retroactively by `PeriodicSignal` coalescing), `nextId` the next fresh
admission index. `areaPending` is the area's pending-byte counter as
charged by this path. -/
structure PathState where
  queue : List AdmEvent
  handled : List AdmEvent
  admitted : List AdmEvent
  droppedIds : List Nat
  nextId : Nat
  paused : Bool
  awaiting : Bool
  owner : Nat
  areaPending : Int
  feedbacks : List FeedbackRec
  deriving DecidableEq, Repr

/-- Modelled from the spec: the initial state of a freshly added path. -/
def initState : PathState :=
  { queue := [], handled := [], admitted := [], droppedIds := [], nextId := 0,
    paused := false, awaiting := false, owner := 0, areaPending := 0, feedbacks := [] }

/-- Modelled from the spec: one externally triggered transition of the
path.  `admitEv` is an event arriving on `In` for this path; `handle` is the
owning worker pulling one batch, with the handler's `await` return value;
`wake` is a token for the path on the `Wake` channel; `migrate` is a
scheduler reassignment; `pause`/`resume` are memory-controller
transitions. -/
inductive DSStep where
  | admitEv (size group : Int) (property : Property)
  | handle (await : Bool)
  | wake
  | migrate (w : Nat)
  | pause
  | resume
  deriving DecidableEq, Repr

/-- Modelled from the spec (section 4.2, step 3): the queued
`PeriodicSignal` of the same data group that an arriving `PeriodicSignal`
coalesces with. -/
def samePeriodicSignal (g : Int) (x : AdmEvent) : Bool :=
  x.property = PeriodicSignal ∧ x.group = g

/-- Modelled from the spec: enqueue an admitted event (section 4.2,
step 6). -/
def enqueueEvent (s : PathState) (e : AdmEvent) : PathState :=
  { s with queue := s.queue ++ [e], admitted := s.admitted ++ [e],
           nextId := s.nextId + 1, areaPending := s.areaPending + e.size }

/-- Modelled from the spec: drop an arriving event (`OnDrop`, sections 4.2
steps 4 and 5); the event is recorded as admitted-and-dropped. -/
def dropEvent (s : PathState) (e : AdmEvent) : PathState :=
  { s with admitted := s.admitted ++ [e], droppedIds := s.droppedIds ++ [e.id],
           nextId := s.nextId + 1 }

/-- Modelled from the spec: the internal event envelope built at admission,
with the next fresh ghost admission index. -/
def mkEvent (s : PathState) (size group : Int) (pr : Property) : AdmEvent :=
  { id := s.nextId, size := size, group := group, property := pr }

/-- Modelled from the spec (section 4.2): admission of one event for the
path.  A `PeriodicSignal` is always admitted and coalesces with a queued
signal of the same data group, dropping the earlier one; other events are
dropped while the path is paused, or (with memory control enabled) when
admitting would push the area total over `MaxPendingSize`. -/
def admitEvent (cfg : DSConfig) (s : PathState) (size group : Int)
    (property : Property) : PathState :=
  if property = PeriodicSignal then
    match s.queue.find? (samePeriodicSignal group) with
    | some old =>
      { s with queue := s.queue.filter (fun x => x.id ≠ old.id) ++
                 [mkEvent s size group property],
               admitted := s.admitted ++ [mkEvent s size group property],
               droppedIds := s.droppedIds ++ [old.id],
               nextId := s.nextId + 1,
               areaPending := s.areaPending - old.size + size }
    | none => enqueueEvent s (mkEvent s size group property)
  else if s.paused then
    dropEvent s (mkEvent s size group property)
  else if cfg.EnableMemoryControl ∧ cfg.MaxPendingSize < s.areaPending + size then
    dropEvent s (mkEvent s size group property)
  else
    enqueueEvent s (mkEvent s size group property)

/-- Modelled from the spec (section 4.3): the longest prefix of the queue
whose events all have the given type (batches break at the first event of a
different type). -/
def sameTypePrefix (g : Int) (p : Property) : List AdmEvent → List AdmEvent
  | [] => []
  | x :: rest =>
    if x.group = g ∧ x.property = p then x :: sameTypePrefix g p rest else []

/-- Modelled from the spec (section 4.3): the batch the worker pulls: up to
`BatchCount` contiguous events of the head event's type; `NonBatchable`
events force a batch of one. -/
def takeBatch (cfg : DSConfig) (q : List AdmEvent) : List AdmEvent :=
  match q with
  | [] => []
  | x :: _ =>
    let cap := if x.property = NonBatchable then 1 else cfg.BatchCount
    (sameTypePrefix x.group x.property q).take cap

/-- Modelled from the spec (section 4.3): the owning worker pulls one batch
and calls `Handle`, which returns `await`.  A worker never pulls from an
empty or awaiting path (`Handle` is guaranteed a non-empty batch, and
`awaiting ⇒ worker must not pull`), so those cases are no-ops.  The batch's
bytes are released from the area immediately in both the `await` and the
synchronous case. -/
def handleBatch (cfg : DSConfig) (s : PathState) (await : Bool) : PathState :=
  if s.queue = [] ∨ s.awaiting = true then s
  else
    { s with queue := s.queue.drop (takeBatch cfg s.queue).length,
             handled := s.handled ++ takeBatch cfg s.queue,
             awaiting := await,
             areaPending := s.areaPending - ((takeBatch cfg s.queue).map (fun e => e.size)).sum }

/-- Modelled from the spec: one transition of the path state.  `wake`
clears `awaiting`; `migrate` reassigns the owning worker and nothing else
(migration "drains to a coherence point" first, which in the per-path
projection means it happens between batches); `pause`/`resume` are the
edge-triggered memory-controller transitions, which exist only when memory
control is enabled and enqueue a feedback record on the edge. -/
def step (cfg : DSConfig) (s : PathState) : DSStep → PathState
  | .admitEv size group property => admitEvent cfg s size group property
  | .handle await => handleBatch cfg s await
  | .wake => { s with awaiting := false }
  | .migrate w => { s with owner := w }
  | .pause =>
    if cfg.EnableMemoryControl ∧ s.paused = false then
      { s with paused := true, feedbacks := s.feedbacks ++ [{ pause := true }] }
    else s
  | .resume =>
    if cfg.EnableMemoryControl ∧ s.paused = true then
      { s with paused := false, feedbacks := s.feedbacks ++ [{ pause := false }] }
    else s

/-- Modelled from the spec: run a trace of transitions from the initial
path state. -/
def run (cfg : DSConfig) (steps : List DSStep) : PathState :=
  steps.foldl (step cfg) initState

/-- Modelled from the spec: the admission-order sequence of the path's
non-dropped events. -/
def nonDropped (s : PathState) : List AdmEvent :=
  s.admitted.filter (fun e => decide (e.id ∉ s.droppedIds))

/-- Modelled from the spec: `Feedback()` "returns the channel to receive
the feedbacks for the listener; return nil if Option.EnableMemoryControl is
false".  The channel is embedded as the list of records it delivers, `none`
embedding the nil channel. -/
def feedbackChannel (cfg : DSConfig) (s : PathState) : Option (List FeedbackRec) :=
  if cfg.EnableMemoryControl then some s.feedbacks else none

/-- Modelled from the spec: the inductive invariant tying the path state to
its ghost admission history: the handled sequence followed by the pending
queue is exactly the admission-order sequence of non-dropped events;
admission indices in `admitted` are fresh (below `nextId`) and strictly
increasing; dropped indices are stale. -/
def Inv (s : PathState) : Prop :=
  s.handled ++ s.queue = nonDropped s ∧
  (∀ e ∈ s.admitted, e.id < s.nextId) ∧
  s.admitted.Pairwise (fun a b => a.id < b.id) ∧
  (∀ i ∈ s.droppedIds, i < s.nextId)

end PathModel

/-! ## Theorems about the dynstream options -/

open Dynstream in
/-- C3: `NewDynamicStream` panics (embedded as `Except.error`) if and only if
the platform's `int` type is not 8 bytes (64 bits) wide; on a 64-bit platform
it never panics and builds the stream from the first supplied `Option`, or
from `NewOption()` when no `Option` is supplied. -/
theorem newDynamicStream_panics_iff_int_not_64bit (intSize : Nat) (opts : List Opt) :
    ((NewDynamicStream intSize opts).isOk = false ↔ intSize ≠ 8) ∧
    (intSize = 8 → NewDynamicStream intSize opts = .ok (opts.headD NewOption)) := by
  constructor
  · unfold NewDynamicStream
    split
    · simp_all [Except.isOk, Except.toBool]
    · simp_all [Except.isOk, Except.toBool]
  · intro h
    subst h
    unfold NewDynamicStream
    cases opts <;> simp

open Dynstream in
/-- Witness for C3: on an 8-byte `int` platform with no options supplied,
`NewDynamicStream` returns the default configuration. -/
theorem newDynamicStream_panics_iff_int_not_64bit_witness :
    NewDynamicStream 8 [] = .ok NewOption :=
  (newDynamicStream_panics_iff_int_not_64bit 8 []).2 rfl

open Dynstream in
/-- C4: after `Option.fix`, `StreamCount` is `runtime.NumCPU()` when it was
`0` and unchanged otherwise; `BatchCount ≤ 0` is mapped to `1`, every
`BatchCount ≥ 1` is unchanged (hence any `BatchCount ≤ 1` ends up exactly
`1`); all other fields are unchanged. -/
theorem option_fix_spec (o : Opt) (numCPU : Int) :
    (o.fix numCPU).StreamCount = (if o.StreamCount = 0 then numCPU else o.StreamCount) ∧
    (o.fix numCPU).BatchCount = (if o.BatchCount ≤ 0 then 1 else o.BatchCount) ∧
    (o.BatchCount ≤ 1 → (o.fix numCPU).BatchCount = 1) ∧
    (1 ≤ o.BatchCount → (o.fix numCPU).BatchCount = o.BatchCount) ∧
    (o.fix numCPU).SchedulerInterval = o.SchedulerInterval ∧
    (o.fix numCPU).ReportInterval = o.ReportInterval ∧
    (o.fix numCPU).EnableMemoryControl = o.EnableMemoryControl := by
  by_cases h1 : o.StreamCount = 0 <;> by_cases h2 : o.BatchCount ≤ 0 <;>
    simp [Opt.fix, h1, h2] <;> omega

open Dynstream in
/-- Witness for C4: a configuration with `StreamCount = 0` and
`BatchCount = 0` is fixed to `StreamCount = 4` (the supplied CPU count) and
`BatchCount = 1`. -/
theorem option_fix_spec_witness :
    (({ SchedulerInterval := 7, ReportInterval := 9, StreamCount := 0, BatchCount := 0,
        EnableMemoryControl := true } : Opt).fix 4).StreamCount = 4 ∧
    (({ SchedulerInterval := 7, ReportInterval := 9, StreamCount := 0, BatchCount := 0,
        EnableMemoryControl := true } : Opt).fix 4).BatchCount = 1 := by
  have h := option_fix_spec
    { SchedulerInterval := 7, ReportInterval := 9, StreamCount := 0, BatchCount := 0,
      EnableMemoryControl := true } 4
  exact ⟨by rw [h.1]; decide, h.2.2.1 (by decide)⟩

open Dynstream in
/-- C5: after `AreaSettings.fix`, `MaxPendingSize` is positive: any input
`≤ 0` becomes the default 128 MiB (`134217728` bytes) and positive inputs are
unchanged; a `FeedbackInterval` of `0` becomes the default 1 second
(`1000000000` ns) while negative (feedback disabled) and positive intervals
are unchanged. -/
theorem areaSettings_fix_spec (s : AreaSettings) :
    0 < s.fix.MaxPendingSize ∧
    s.fix.MaxPendingSize = (if s.MaxPendingSize ≤ 0 then 134217728 else s.MaxPendingSize) ∧
    s.fix.FeedbackInterval = (if s.FeedbackInterval = 0 then 1000000000 else s.FeedbackInterval) := by
  unfold AreaSettings.fix
  split <;> split <;>
    simp_all [DefaultMaxPendingSize, DefaultFeedbackInterval, timeMillisecond]

/-- C6: `NewOption()` returns `SchedulerInterval = 1 s` (`1000000000` ns),
`ReportInterval = 500 ms` (`500000000` ns), `StreamCount = 0`,
`BatchCount = 1` and `EnableMemoryControl = false`. -/
theorem newOption_defaults :
    Dynstream.NewOption.SchedulerInterval = 1000000000 ∧
    Dynstream.NewOption.ReportInterval = 500000000 ∧
    Dynstream.NewOption.StreamCount = 0 ∧
    Dynstream.NewOption.BatchCount = 1 ∧
    Dynstream.NewOption.EnableMemoryControl = false := by
  refine ⟨?_, ?_, rfl, rfl, rfl⟩ <;> decide

/-- C7: the default event type is `{DataGroup = 0, Property = BatchableData}`,
and `BatchableData` is the zero value of `Property`. -/
theorem defaultEventType_spec :
    Dynstream.DefaultEventType.DataGroup = 0 ∧
    Dynstream.DefaultEventType.Property = Dynstream.BatchableData ∧
    Dynstream.BatchableData = 0 :=
  ⟨rfl, rfl, rfl⟩

/-! ## Lemmas about the conflict detector -/

namespace ConflictDetector

theorem fnv32aStep_lt (h b : Nat) : fnv32aStep h b < 2 ^ 32 :=
  Nat.mod_lt _ (by norm_num)

theorem fnv32a_lt (bytes : List Byte) : fnv32a bytes < 2 ^ 32 := by
  have key : ∀ (l : List Byte) (h : Nat), h < 2 ^ 32 → l.foldl fnv32aStep h < 2 ^ 32 := by
    intro l
    induction l with
    | nil => intro h hh; exact hh
    | cons b t ih => intro h _; exact ih _ (fnv32aStep_lt h b)
  exact key _ _ (by norm_num)

theorem insertIfAbsent_ne_nil (acc : List Nat) (x : Nat) : insertIfAbsent acc x ≠ [] := by
  unfold insertIfAbsent
  split
  · exact List.ne_nil_of_mem ‹x ∈ acc›
  · simp

theorem nodup_insertIfAbsent (acc : List Nat) (x : Nat) (h : acc.Nodup) :
    (insertIfAbsent acc x).Nodup := by
  unfold insertIfAbsent
  split
  · exact h
  · next hx => simp [List.nodup_append, h, hx]

theorem mem_insertIfAbsent (acc : List Nat) (x y : Nat) (h : y ∈ insertIfAbsent acc x) :
    y ∈ acc ∨ y = x := by
  unfold insertIfAbsent at h
  split at h
  · exact Or.inl h
  · simpa using h

theorem foldl_insertIfAbsent_ne_nil {α : Type} (g : α → Nat) (l : List α) (acc : List Nat)
    (h : acc ≠ [] ∨ l ≠ []) :
    l.foldl (fun a k => insertIfAbsent a (g k)) acc ≠ [] := by
  induction l generalizing acc with
  | nil => simpa using h.resolve_right (by simp)
  | cons x t ih =>
    simp only [List.foldl_cons]
    exact ih _ (Or.inl (insertIfAbsent_ne_nil _ _))

theorem nodup_foldl_insertIfAbsent {α : Type} (g : α → Nat) (l : List α) (acc : List Nat)
    (h : acc.Nodup) :
    (l.foldl (fun a k => insertIfAbsent a (g k)) acc).Nodup := by
  induction l generalizing acc with
  | nil => exact h
  | cons x t ih => exact ih _ (nodup_insertIfAbsent _ _ h)

theorem mem_foldl_insertIfAbsent {α : Type} (g : α → Nat) (l : List α) (acc : List Nat) (y : Nat)
    (h : y ∈ l.foldl (fun a k => insertIfAbsent a (g k)) acc) :
    y ∈ acc ∨ ∃ k ∈ l, y = g k := by
  induction l generalizing acc with
  | nil => exact Or.inl h
  | cons x t ih =>
    simp only [List.foldl_cons] at h
    rcases ih _ h with h' | h'
    · rcases mem_insertIfAbsent _ _ _ h' with h'' | h''
      · exact Or.inl h''
      · exact Or.inr ⟨x, by simp, h''⟩
    · rcases h' with ⟨k, hk, rfl⟩
      exact Or.inr ⟨k, by simp [hk], rfl⟩

theorem ite_length_zero_ne_nil {α : Type} (keys : List α) (x : α) :
    (if keys.length = 0 then [x] else keys) ≠ [] := by
  split
  · simp
  · next h => simpa [List.length_eq_zero] using h

theorem genRowKeys_ne_nil (row : RowChangedEvent) : genRowKeys row ≠ [] := by
  unfold genRowKeys
  exact ite_length_zero_ne_nil _ _

theorem addRowHashes_ne_nil (acc : List Nat) (row : RowChangedEvent) :
    addRowHashes acc row ≠ [] :=
  foldl_insertIfAbsent_ne_nil _ _ _ (Or.inr (genRowKeys_ne_nil row))

theorem nodup_addRowHashes (acc : List Nat) (row : RowChangedEvent) (h : acc.Nodup) :
    (addRowHashes acc row).Nodup :=
  nodup_foldl_insertIfAbsent _ _ _ h

theorem mem_addRowHashes_lt (acc : List Nat) (row : RowChangedEvent) (y : Nat)
    (hacc : ∀ z ∈ acc, z < 2 ^ 32) (hy : y ∈ addRowHashes acc row) : y < 2 ^ 32 := by
  rcases mem_foldl_insertIfAbsent _ _ _ _ hy with h | ⟨k, _, rfl⟩
  · exact hacc _ h
  · exact fnv32a_lt k

theorem foldl_addRowHashes_ne_nil (rows : List RowChangedEvent) (acc : List Nat)
    (h : acc ≠ []) : rows.foldl addRowHashes acc ≠ [] := by
  induction rows generalizing acc with
  | nil => exact h
  | cons r rs ih => exact ih _ (addRowHashes_ne_nil _ _)

theorem nodup_foldl_addRowHashes (rows : List RowChangedEvent) (acc : List Nat)
    (h : acc.Nodup) : (rows.foldl addRowHashes acc).Nodup := by
  induction rows generalizing acc with
  | nil => exact h
  | cons r rs ih => exact ih _ (nodup_addRowHashes _ _ h)

theorem mem_foldl_addRowHashes_lt (rows : List RowChangedEvent) (acc : List Nat) (y : Nat)
    (hacc : ∀ z ∈ acc, z < 2 ^ 32) (hy : y ∈ rows.foldl addRowHashes acc) : y < 2 ^ 32 := by
  induction rows generalizing acc with
  | nil => exact hacc _ hy
  | cons r rs ih => exact ih _ (fun z hz => mem_addRowHashes_lt _ _ _ hacc hz) hy

theorem genKeyCols_some_sound (columns : List (Option Column)) (colIdx : List Nat)
    (k : List Byte) (h : genKeyCols columns colIdx = some k) :
    ∀ i ∈ colIdx, ∃ c, columns.getD i none = some c ∧ c.value.isSome ∧
      c.flagGeneratedColumn = false := by
  induction colIdx generalizing k with
  | nil => simp
  | cons i rest ih =>
    intro j hj
    unfold genKeyCols at h
    split at h
    · simp at h
    · next c hcol =>
      split at h
      · simp at h
      · next v hval =>
        split at h
        · simp at h
        · next hg =>
          split at h
          · simp at h
          · next tail hrest =>
            rcases List.mem_cons.mp hj with rfl | hj'
            · exact ⟨c, hcol, by simp [hval], by simpa using hg⟩
            · exact ih tail hrest j hj'

theorem genKeyList_ne_nil_sound (columns : List (Option Column)) (iIdx : Nat)
    (colIdx : List Nat) (tableID : Int) (h : genKeyList columns iIdx colIdx tableID ≠ []) :
    ∀ i ∈ colIdx, ∃ c, columns.getD i none = some c ∧ c.value.isSome ∧
      c.flagGeneratedColumn = false := by
  unfold genKeyList at h
  cases hc : genKeyCols columns colIdx with
  | none => rw [hc] at h; simp at h
  | some key => exact genKeyCols_some_sound columns colIdx key hc

theorem genRowKeys_fallback (row : RowChangedEvent)
    (h : ∀ p ∈ row.TableInfo.IndexColumnsOffset.enum,
        genKeyList row.Columns p.1 p.2 row.TableID = [] ∧
        genKeyList row.PreColumns p.1 p.2 row.TableID = []) :
    genRowKeys row = [putUint64BE (toUint64 row.TableID)] := by
  have hC : rowIndexKeys row.GetColumns row.TableInfo.IndexColumnsOffset row.GetTableID = [] := by
    rw [rowIndexKeys, List.filterMap_eq_nil_iff]
    intro p hp
    simp [RowChangedEvent.GetColumns, RowChangedEvent.GetTableID, (h p hp).1]
  have hP : rowIndexKeys row.GetPreColumns row.TableInfo.IndexColumnsOffset row.GetTableID = [] := by
    rw [rowIndexKeys, List.filterMap_eq_nil_iff]
    intro p hp
    simp [RowChangedEvent.GetPreColumns, RowChangedEvent.GetTableID, (h p hp).2]
  unfold genRowKeys
  rw [hC, hP]
  simp [RowChangedEvent.GetTableID]

end ConflictDetector

open ConflictDetector in
/-- C8: `ConflictKeys` returns nil exactly when `event.Rows` is empty; the
result never contains a duplicate and every element is below `2^32` (each is
a widened 32-bit FNV-1a hash of a row key); in particular for non-empty
`Rows` the result is non-empty. -/
theorem conflictKeys_spec (event : TxnEvent) :
    (ConflictKeys event = [] ↔ event.Rows = []) ∧
    (ConflictKeys event).Nodup ∧
    (∀ k ∈ ConflictKeys event, k < 2 ^ 32) := by
  refine ⟨⟨?_, ?_⟩, ?_, ?_⟩
  · intro h
    by_contra hrows
    unfold ConflictKeys at h
    rw [if_neg (by simpa [List.length_eq_zero] using hrows)] at h
    cases hr : event.Rows with
    | nil => exact hrows hr
    | cons r rs =>
      rw [hr] at h
      simp only [List.foldl_cons] at h
      exact foldl_addRowHashes_ne_nil rs _ (addRowHashes_ne_nil [] r) h
  · intro h
    unfold ConflictKeys
    rw [if_pos (by simp [h])]
  · unfold ConflictKeys
    split
    · exact List.nodup_nil
    · exact nodup_foldl_addRowHashes _ _ List.nodup_nil
  · intro k hk
    unfold ConflictKeys at hk
    split at hk
    · simp at hk
    · exact mem_foldl_addRowHashes_lt _ _ _ (by simp) hk

open ConflictDetector in
/-- Witness for C8: a transaction with one row and no usable index yields
the single widened hash of the big-endian table-ID key, which is non-empty,
duplicate-free and below `2^32`. -/
theorem conflictKeys_spec_witness :
    (ConflictKeys ⟨[⟨[], [], ⟨[]⟩, 5⟩]⟩ = [] ↔
      ([⟨[], [], ⟨[]⟩, 5⟩] : List RowChangedEvent) = []) ∧
    (ConflictKeys ⟨[⟨[], [], ⟨[]⟩, 5⟩]⟩).Nodup ∧
    (∀ k ∈ ConflictKeys ⟨[⟨[], [], ⟨[]⟩, 5⟩]⟩, k < 2 ^ 32) :=
  conflictKeys_spec ⟨[⟨[], [], ⟨[]⟩, 5⟩]⟩

open ConflictDetector in
/-- C9: `genRowKeys` always returns at least one key; an index contributes a
key only when every column it references is present (non-nil), has a
non-null value and is not a generated column; and when no index of either
`Columns` or `PreColumns` yields a key, the result is exactly the single
8-byte big-endian encoding of the table ID. -/
theorem genRowKeys_spec :
    (∀ row : RowChangedEvent, genRowKeys row ≠ []) ∧
    (∀ (columns : List (Option Column)) (iIdx : Nat) (colIdx : List Nat) (tableID : Int),
      genKeyList columns iIdx colIdx tableID ≠ [] →
      ∀ i ∈ colIdx, ∃ c, columns.getD i none = some c ∧ c.value.isSome ∧
        c.flagGeneratedColumn = false) ∧
    (∀ row : RowChangedEvent,
      (∀ p ∈ row.TableInfo.IndexColumnsOffset.enum,
          genKeyList row.Columns p.1 p.2 row.TableID = [] ∧
          genKeyList row.PreColumns p.1 p.2 row.TableID = []) →
      genRowKeys row = [putUint64BE (toUint64 row.TableID)]) :=
  ⟨genRowKeys_ne_nil, genKeyList_ne_nil_sound, genRowKeys_fallback⟩

open ConflictDetector in
/-- Witness for C9: a row with no columns and no indexes gets exactly the
big-endian table-ID key, in particular a non-empty key list. -/
theorem genRowKeys_spec_witness :
    genRowKeys ⟨[], [], ⟨[]⟩, 5⟩ = [putUint64BE (toUint64 5)] ∧
    genRowKeys ⟨[], [], ⟨[]⟩, 5⟩ ≠ [] :=
  ⟨genRowKeys_spec.2.2 ⟨[], [], ⟨[]⟩, 5⟩ (by simp), genRowKeys_spec.1 ⟨[], [], ⟨[]⟩, 5⟩⟩

/-! ## Lemmas about the coordinator add-maintainer operator -/

namespace OperatorAdd

theorem finished_applyMethod (m : AddMaintainerOperator) (c : MethodCall)
    (h : m.finished = true) : (applyMethod m c).finished = true := by
  cases c with
  | check f s =>
    simp only [applyMethod, Check]
    split
    · rfl
    · exact h
  | onNodeRemove n =>
    simp only [applyMethod, OnNodeRemove]
    split
    · rfl
    · exact h
  | onTaskRemoved => rfl
  | start => exact h
  | postFinish => exact h

theorem finished_runMethods (m : AddMaintainerOperator) (calls : List MethodCall)
    (h : m.finished = true) : (runMethods m calls).finished = true := by
  induction calls generalizing m with
  | nil => exact h
  | cons c cs ih => exact ih _ (finished_applyMethod m c h)

end OperatorAdd

open OperatorAdd in
/-- C10: after `OnNodeRemove` with the operator's destination, after
`OnTaskRemoved`, or after a `Check` from the destination reporting
`ComponentState_Working`, `IsFinished()` is `true`; and once finished, any
further sequence of method calls leaves the operator finished and every
`Schedule()` call returns nil — `finished` is never reset. -/
theorem addMaintainerOperator_finished_spec (m : AddMaintainerOperator) :
    IsFinished (OnNodeRemove m m.dest) = true ∧
    IsFinished (OnTaskRemoved m) = true ∧
    (∀ status : MaintainerStatus, status.State = ComponentState.Working →
      IsFinished (Check m m.dest status) = true) ∧
    (∀ calls : List MethodCall, IsFinished m = true →
      IsFinished (runMethods m calls) = true ∧ Schedule (runMethods m calls) = none) := by
  refine ⟨?_, rfl, ?_, ?_⟩
  · simp [IsFinished, OnNodeRemove]
  · intro status hs
    cases hf : m.finished with
    | false => simp [IsFinished, Check, hf, hs]
    | true => simp [IsFinished, Check, hf]
  · intro calls h
    have hfin := finished_runMethods m calls h
    exact ⟨hfin, by simp [Schedule, hfin]⟩

open OperatorAdd in
/-- Witness for C10: a freshly created operator is finished after
`OnTaskRemoved`, and after two further arbitrary calls it is still finished
and `Schedule` returns nil. -/
theorem addMaintainerOperator_finished_spec_witness :
    IsFinished (OnTaskRemoved (NewAddMaintainerOperator "cf" "n1")) = true ∧
    IsFinished (runMethods (OnTaskRemoved (NewAddMaintainerOperator "cf" "n1"))
      [MethodCall.start, MethodCall.check "n1" ⟨ComponentState.Working⟩]) = true ∧
    Schedule (runMethods (OnTaskRemoved (NewAddMaintainerOperator "cf" "n1"))
      [MethodCall.start, MethodCall.check "n1" ⟨ComponentState.Working⟩]) = none := by
  have h := addMaintainerOperator_finished_spec (OnTaskRemoved (NewAddMaintainerOperator "cf" "n1"))
  have h2 := h.2.2.2 [MethodCall.start, MethodCall.check "n1" ⟨ComponentState.Working⟩] rfl
  exact ⟨h.2.1, h2.1, h2.2⟩

/-! ## Lemmas about the per-path spec model -/

namespace PathModel

theorem sameTypePrefix_eq_take (g : Int) (p : Dynstream.Property) (q : List AdmEvent) :
    ∃ n, sameTypePrefix g p q = q.take n := by
  induction q with
  | nil => exact ⟨0, rfl⟩
  | cons x rest ih =>
    by_cases hx : x.group = g ∧ x.property = p
    · obtain ⟨n, hn⟩ := ih
      exact ⟨n + 1, by simp [sameTypePrefix, hx, hn]⟩
    · exact ⟨0, by simp [sameTypePrefix, hx]⟩

theorem takeBatch_eq_take (cfg : DSConfig) (q : List AdmEvent) :
    ∃ m, takeBatch cfg q = q.take m := by
  cases q with
  | nil => exact ⟨0, rfl⟩
  | cons x rest =>
    obtain ⟨n, hn⟩ := sameTypePrefix_eq_take x.group x.property (x :: rest)
    refine ⟨min (if x.property = Dynstream.NonBatchable then 1 else cfg.BatchCount) n, ?_⟩
    simp only [takeBatch]
    rw [hn, List.take_take]

theorem drop_length_take {α : Type} (q : List α) (m : Nat) :
    q.drop ((q.take m).length) = q.drop m := by
  rw [List.length_take]
  rcases Nat.le_total m q.length with h | h
  · rw [Nat.min_eq_left h]
  · rw [Nat.min_eq_right h, List.drop_length, List.drop_eq_nil_of_le h]

theorem takeBatch_append_drop (cfg : DSConfig) (q : List AdmEvent) :
    takeBatch cfg q ++ q.drop (takeBatch cfg q).length = q := by
  obtain ⟨m, hm⟩ := takeBatch_eq_take cfg q
  rw [hm, drop_length_take, List.take_append_drop]

theorem filter_dropped_snoc_of_ne (A : List AdmEvent) (D : List Nat) (j : Nat)
    (hj : ∀ e ∈ A, e.id ≠ j) :
    A.filter (fun e => decide (e.id ∉ D ++ [j])) = A.filter (fun e => decide (e.id ∉ D)) := by
  apply List.filter_congr
  intro e he
  rw [decide_eq_decide]
  simp [hj e he]

theorem filter_dropped_snoc (A : List AdmEvent) (D : List Nat) (j : Nat) :
    A.filter (fun e => decide (e.id ∉ D ++ [j])) =
      (A.filter (fun e => decide (e.id ∉ D))).filter (fun e => decide (e.id ≠ j)) := by
  rw [List.filter_filter]
  apply List.filter_congr
  intro e he
  by_cases h1 : e.id ∈ D <;> by_cases h2 : e.id = j <;> simp [h1, h2]

end PathModel

namespace PathModel

theorem nextId_notMem_dropped (s : PathState) (h4 : ∀ i ∈ s.droppedIds, i < s.nextId) :
    s.nextId ∉ s.droppedIds :=
  fun hm => absurd (h4 _ hm) (lt_irrefl _)

theorem pairwise_snoc_ids (A : List AdmEvent) (e : AdmEvent)
    (h3 : A.Pairwise (fun a b => a.id < b.id)) (h2 : ∀ x ∈ A, x.id < e.id) :
    (A ++ [e]).Pairwise (fun a b => a.id < b.id) := by
  rw [List.pairwise_append]
  exact ⟨h3, List.pairwise_singleton _ _, fun a ha b hb => by
    rw [List.mem_singleton] at hb; subst hb; exact h2 a ha⟩

theorem inv_enqueueEvent (s : PathState) (h : Inv s) (size group : Int)
    (pr : Dynstream.Property) : Inv (enqueueEvent s (mkEvent s size group pr)) := by
  obtain ⟨h1, h2, h3, h4⟩ := h
  unfold nonDropped at h1
  have hnot : s.nextId ∉ s.droppedIds := nextId_notMem_dropped s h4
  unfold Inv nonDropped enqueueEvent mkEvent
  dsimp only
  refine ⟨?_, ?_, ?_, ?_⟩
  · rw [List.filter_append, ← h1]
    have hsingle : ([({ id := s.nextId, size := size, group := group, property := pr } :
        AdmEvent)].filter (fun e => decide (e.id ∉ s.droppedIds))) =
        [{ id := s.nextId, size := size, group := group, property := pr }] := by
      simp [hnot]
    rw [hsingle, List.append_assoc]
  · intro x hx
    rcases List.mem_append.mp hx with hx | hx
    · exact Nat.lt_succ_of_lt (h2 x hx)
    · rw [List.mem_singleton] at hx; subst hx; exact Nat.lt_succ_self _
  · exact pairwise_snoc_ids _ _ h3 (fun x hx => h2 x hx)
  · intro i hi
    exact Nat.lt_succ_of_lt (h4 i hi)

theorem inv_dropEvent (s : PathState) (h : Inv s) (size group : Int)
    (pr : Dynstream.Property) : Inv (dropEvent s (mkEvent s size group pr)) := by
  obtain ⟨h1, h2, h3, h4⟩ := h
  unfold nonDropped at h1
  unfold Inv nonDropped dropEvent mkEvent
  dsimp only
  refine ⟨?_, ?_, ?_, ?_⟩
  · rw [List.filter_append,
      filter_dropped_snoc_of_ne _ _ _ (fun x hx => Nat.ne_of_lt (h2 x hx)), ← h1]
    have hsingle : ([({ id := s.nextId, size := size, group := group, property := pr } :
        AdmEvent)].filter (fun e => decide (e.id ∉ s.droppedIds ++ [s.nextId]))) = [] := by
      simp
    rw [hsingle, List.append_nil]
  · intro x hx
    rcases List.mem_append.mp hx with hx | hx
    · exact Nat.lt_succ_of_lt (h2 x hx)
    · rw [List.mem_singleton] at hx; subst hx; exact Nat.lt_succ_self _
  · exact pairwise_snoc_ids _ _ h3 (fun x hx => h2 x hx)
  · intro i hi
    rcases List.mem_append.mp hi with hi | hi
    · exact Nat.lt_succ_of_lt (h4 i hi)
    · rw [List.mem_singleton] at hi; subst hi; exact Nat.lt_succ_self _

theorem inv_step (cfg : DSConfig) (s : PathState) (st : DSStep) (h : Inv s) :
    Inv (step cfg s st) := by
  cases st with
  | admitEv size group property =>
    simp only [step, admitEvent]
    split
    · cases hfind : s.queue.find? (samePeriodicSignal group) with
      | none => exact inv_enqueueEvent s h size group property
      | some old =>
        obtain ⟨h1, h2, h3, h4⟩ := h
        unfold nonDropped at h1
        have hmemQ : old ∈ s.queue := List.mem_of_find?_eq_some hfind
        have hmemA : old ∈ s.admitted := by
          have hm : old ∈ s.handled ++ s.queue := List.mem_append.mpr (Or.inr hmemQ)
          rw [h1] at hm
          exact List.mem_of_mem_filter hm
        have hold_lt : old.id < s.nextId := h2 old hmemA
        have hHQ : (s.handled ++ s.queue).Pairwise (fun a b => a.id < b.id) := by
          rw [h1]
          exact List.Pairwise.sublist (List.filter_sublist _) h3
        have hH_ne : ∀ x ∈ s.handled, x.id ≠ old.id := fun x hx =>
          Nat.ne_of_lt ((List.pairwise_append.mp hHQ).2.2 x hx old hmemQ)
        have hHfilter : s.handled.filter (fun x => decide (x.id ≠ old.id)) = s.handled :=
          List.filter_eq_self.mpr (fun x hx => decide_eq_true (hH_ne x hx))
        unfold Inv nonDropped
        dsimp only
        refine ⟨?_, ?_, ?_, ?_⟩
        · rw [List.filter_append, filter_dropped_snoc, ← h1, List.filter_append, hHfilter]
          have hsingle : ([mkEvent s size group property].filter
              (fun e => decide (e.id ∉ s.droppedIds ++ [old.id]))) =
              [mkEvent s size group property] := by
            have h5 : s.nextId ∉ s.droppedIds := nextId_notMem_dropped s h4
            have h6 : s.nextId ≠ old.id := (Nat.ne_of_lt hold_lt).symm
            simp [mkEvent, h5, h6]
          rw [hsingle, List.append_assoc]
        · intro x hx
          rcases List.mem_append.mp hx with hx | hx
          · exact Nat.lt_succ_of_lt (h2 x hx)
          · rw [List.mem_singleton] at hx; subst hx; exact Nat.lt_succ_self _
        · exact pairwise_snoc_ids _ _ h3 (fun x hx => h2 x hx)
        · intro i hi
          rcases List.mem_append.mp hi with hi | hi
          · exact Nat.lt_succ_of_lt (h4 i hi)
          · rw [List.mem_singleton] at hi; subst hi; exact Nat.lt_succ_of_lt hold_lt
    · split
      · exact inv_dropEvent s h size group property
      · split
        · exact inv_dropEvent s h size group property
        · exact inv_enqueueEvent s h size group property
  | handle await =>
    simp only [step, handleBatch]
    split
    · exact h
    · obtain ⟨h1, h2, h3, h4⟩ := h
      refine ⟨?_, h2, h3, h4⟩
      show (s.handled ++ takeBatch cfg s.queue) ++
        s.queue.drop (takeBatch cfg s.queue).length = _
      rw [List.append_assoc, takeBatch_append_drop]
      exact h1
  | wake => exact h
  | migrate w => exact h
  | pause =>
    simp only [step]
    split
    · exact h
    · exact h
  | resume =>
    simp only [step]
    split
    · exact h
    · exact h

theorem inv_init : Inv initState := by
  refine ⟨rfl, ?_, ?_, ?_⟩ <;> simp [initState]

theorem inv_foldl (cfg : DSConfig) (steps : List DSStep) (s : PathState) (h : Inv s) :
    Inv (steps.foldl (step cfg) s) := by
  induction steps generalizing s with
  | nil => exact h
  | cons st rest ih => exact ih _ (inv_step cfg s st h)

theorem inv_run (cfg : DSConfig) (steps : List DSStep) : Inv (run cfg steps) :=
  inv_foldl cfg steps initState inv_init

end PathModel

namespace PathModel

theorem feedbacks_admitEvent (cfg : DSConfig) (s : PathState) (size group : Int)
    (pr : Dynstream.Property) : (admitEvent cfg s size group pr).feedbacks = s.feedbacks := by
  unfold admitEvent
  split
  · split <;> rfl
  · split
    · rfl
    · split <;> rfl

theorem feedbacks_step (cfg : DSConfig) (s : PathState) (st : DSStep)
    (h : cfg.EnableMemoryControl = false) : (step cfg s st).feedbacks = s.feedbacks := by
  cases st with
  | admitEv size group pr => exact feedbacks_admitEvent cfg s size group pr
  | handle await =>
    simp only [step, handleBatch]
    split <;> rfl
  | wake => rfl
  | migrate w => rfl
  | pause => simp [step, h]
  | resume => simp [step, h]

theorem feedbacks_run (cfg : DSConfig) (steps : List DSStep)
    (h : cfg.EnableMemoryControl = false) : (run cfg steps).feedbacks = [] := by
  suffices key : ∀ s : PathState, (steps.foldl (step cfg) s).feedbacks = s.feedbacks by
    exact key initState
  induction steps with
  | nil => intro s; rfl
  | cons st rest ih =>
    intro s
    rw [List.foldl_cons, ih, feedbacks_step cfg s st h]

end PathModel

open PathModel in
/-- C1: for the path's whole life, the concatenation of the batches passed
to `Handle` followed by the still-pending queue is exactly, in order, the
admission-order sequence of the path's non-dropped events — so at any
quiescent point (empty queue) `Handle` has received precisely the admitted,
non-dropped events in admission order; and a scheduler migration changes
neither the handled sequence nor the queue, so delivery is strictly FIFO
within the path, including across worker migrations. -/
theorem dynstream_per_path_fifo (cfg : DSConfig) (steps : List DSStep) :
    (run cfg steps).handled ++ (run cfg steps).queue = nonDropped (run cfg steps) ∧
    ((run cfg steps).queue = [] →
      (run cfg steps).handled = nonDropped (run cfg steps)) ∧
    (∀ w, (step cfg (run cfg steps) (DSStep.migrate w)).handled = (run cfg steps).handled ∧
      (step cfg (run cfg steps) (DSStep.migrate w)).queue = (run cfg steps).queue) := by
  obtain ⟨h1, -, -, -⟩ := inv_run cfg steps
  refine ⟨h1, ?_, ?_⟩
  · intro hq
    rw [hq, List.append_nil] at h1
    exact h1
  · intro w
    exact ⟨rfl, rfl⟩

open PathModel in
/-- Witness for C1: two batchable events admitted and handled in one batch
leave an empty queue, and the handled sequence is exactly the admission
sequence (nothing was dropped). -/
theorem dynstream_per_path_fifo_witness :
    (run ⟨4, false, 0⟩
      [DSStep.admitEv 10 0 0, DSStep.admitEv 5 0 0, DSStep.handle false]).queue = [] ∧
    (run ⟨4, false, 0⟩
      [DSStep.admitEv 10 0 0, DSStep.admitEv 5 0 0, DSStep.handle false]).handled =
      nonDropped (run ⟨4, false, 0⟩
        [DSStep.admitEv 10 0 0, DSStep.admitEv 5 0 0, DSStep.handle false]) :=
  ⟨by decide,
   (dynstream_per_path_fifo ⟨4, false, 0⟩
     [DSStep.admitEv 10 0 0, DSStep.admitEv 5 0 0, DSStep.handle false]).2.1 (by decide)⟩

open PathModel in
/-- C2: when the stream is configured with `EnableMemoryControl = false`,
`Feedback()` is the nil channel (`none`), and no feedback record is ever
produced at any point of the execution, whatever the trace. -/
theorem feedback_nil_when_memory_control_disabled (cfg : DSConfig) (steps : List DSStep)
    (h : cfg.EnableMemoryControl = false) :
    feedbackChannel cfg (run cfg steps) = none ∧ (run cfg steps).feedbacks = [] :=
  ⟨by simp [feedbackChannel, h], feedbacks_run cfg steps h⟩

open PathModel in
/-- Witness for C2: with memory control disabled, even a trace containing
pause requests yields a nil feedback channel and no feedback records. -/
theorem feedback_nil_when_memory_control_disabled_witness :
    feedbackChannel ⟨1, false, 100⟩
      (run ⟨1, false, 100⟩ [DSStep.pause, DSStep.admitEv 7 0 0, DSStep.pause]) = none ∧
    (run ⟨1, false, 100⟩
      [DSStep.pause, DSStep.admitEv 7 0 0, DSStep.pause]).feedbacks = [] :=
  feedback_nil_when_memory_control_disabled ⟨1, false, 100⟩
    [DSStep.pause, DSStep.admitEv 7 0 0, DSStep.pause] rfl
